import Mathlib

/-!
Verification of the length-prefixed binary record codec from
src/cpp_example_879d5a.cpp (serializeStudent / deserializeStudent).

Modelling conventions (shallow embedding of the C++ on an LP64
little-endian host, which is what the source compiles to):
  * a byte is a `Nat` (writes always produce values < 256);
  * `Student.id` is the 32-bit two's-complement bit pattern of the C++
    `int` field (4 bytes on the wire);
  * `Student.gpa` is the 64-bit IEEE-754 binary64 bit pattern of the C++
    `double` field (8 bytes on the wire; the codec only copies its raw
    bytes, never does floating-point arithmetic, so the bit pattern is
    the faithful representation);
  * `Student.name` is the raw byte sequence of the `std::string`;
  * `size_t` is 8 bytes, host byte order is little-endian;
  * an output stream is the list of bytes written so far (`os.write`
    appends); an input stream is an `IStream`: the underlying data, the
    read position, and the fail state (C++ failbit/eofbit collapsed to
    one flag, which is what the source can observe);
  * `istream::read(buf, n)` with the stream already failed extracts
    nothing and leaves the buffer untouched; otherwise it extracts
    `min n avail` bytes into the front of the buffer (the remaining
    buffer bytes keep their previous contents) and sets the fail state
    iff fewer than `n` bytes were available;
  * the uninitialized local `size_t nameLength` in deserializeStudent is
    modelled by an explicit parameter `g` (its indeterminate initial bit
    pattern): it only matters when the length-field read fails.
-/

namespace RecordCodec

abbrev Byte := Nat

/-- The `Student` struct of the source: id, name, gpa. -/
structure Student where
  id : Nat
  name : List Byte
  gpa : Nat
deriving DecidableEq, Repr

/-- Little-endian byte image of the low `w` bytes of `v`, as produced by
writing the raw memory of a `w`-byte integer on a little-endian host. -/
def toLE : Nat → Nat → List Byte
  | 0, _ => []
  | w + 1, v => v % 256 :: toLE w (v / 256)

/-- Value whose little-endian byte image is `bs` (reading raw bytes back
into an integer variable). -/
def fromLE : List Byte → Nat
  | [] => 0
  | b :: bs => b + 256 * fromLE bs

/-- C++ input stream state: underlying bytes, read position, fail state. -/
structure IStream where
  data : List Byte
  pos : Nat
  fail : Bool
deriving DecidableEq, Repr

/-- Semantics of `istream::read`: extract up to `w` bytes; a failed stream
extracts nothing; extracting fewer than `w` bytes sets the fail state. -/
def isRead (st : IStream) (w : Nat) : IStream × List Byte :=
  if st.fail then
    (⟨st.data, st.pos, true⟩, [])
  else
    let k := min w (st.data.length - st.pos)
    (⟨st.data, st.pos + k, decide (k < w)⟩, (st.data.drop st.pos).take k)

/-- Reading `w` raw bytes into a `w`-byte integer variable whose previous
bit pattern is `old`: the bytes actually extracted overwrite the front of
the variable; the remaining bytes keep their old value. -/
def readScalar (st : IStream) (w old : Nat) : IStream × Nat :=
  let r := isRead st w
  (r.1, fromLE (r.2 ++ (toLE w old).drop r.2.length))

/-- Writing to an output stream appends the bytes to the sink. -/
def owrite (os : List Byte) (bs : List Byte) : List Byte := os ++ bs

/-- serializeStudent (src/cpp_example_879d5a.cpp lines 36-59), as a state
transformer on the pair (output stream, student): writes the 4 id bytes,
the 8 gpa bytes, the 8 bytes of size_t nameLength = name.length(), then
the nameLength raw name bytes; the student is passed by const reference. -/
def serializeStudentS (os : List Byte) (student : Student) : List Byte × Student :=
  let os1 := owrite os (toLE 4 student.id)
  let os2 := owrite os1 (toLE 8 student.gpa)
  let nameLength := student.name.length
  let os3 := owrite os2 (toLE 8 nameLength)
  let os4 := owrite os3 student.name
  (os4, student)

/-- The bytes in the sink after serializeStudent. -/
def serializeStudent (os : List Byte) (student : Student) : List Byte :=
  (serializeStudentS os student).1

/-- deserializeStudent (src/cpp_example_879d5a.cpp lines 64-82): read 4
bytes into id, 8 into gpa, 8 into the (uninitialized, initial garbage
bit pattern `g`) local nameLength, resize the name to nameLength
(keeping its prefix, zero-filling the extension), then read nameLength
bytes into the front of the name buffer.  No read is checked for
failure. -/
def deserializeStudent (istr : IStream) (student : Student) (g : Nat) :
    IStream × Student :=
  let rid := readScalar istr 4 student.id
  let rgpa := readScalar rid.1 8 student.gpa
  let rlen := readScalar rgpa.1 8 g
  let nameLength := rlen.2
  let resized := student.name.take nameLength ++
    List.replicate (nameLength - student.name.length) 0
  let rname := isRead rlen.1 nameLength
  let newName := rname.2 ++ resized.drop rname.2.length
  (rname.1, ⟨rid.2, newName, rgpa.2⟩)

/-- The length slice: decode reads the name length from bytes 12..20. -/
def lenField (input : List Byte) : Nat := fromLE ((input.drop 12).take 8)

theorem toLE_length (w v : Nat) : (toLE w v).length = w := by
  induction w generalizing v with
  | zero => rfl
  | succ w ih => simp [toLE, ih]

theorem fromLE_toLE (w v : Nat) (h : v < 256 ^ w) : fromLE (toLE w v) = v := by
  induction w generalizing v with
  | zero =>
    simp [pow_zero, Nat.lt_one_iff] at h
    simp [toLE, fromLE, h]
  | succ w ih =>
    have hdiv : v / 256 < 256 ^ w := by
      rw [Nat.div_lt_iff_lt_mul (by norm_num)]
      calc v < 256 ^ (w + 1) := h
        _ = 256 ^ w * 256 := by ring
    simp [toLE, fromLE, ih _ hdiv]
    omega

theorem serializeStudent_eq (os : List Byte) (s : Student) :
    serializeStudent os s =
      os ++ (toLE 4 s.id ++ toLE 8 s.gpa ++ toLE 8 s.name.length ++ s.name) := by
  simp [serializeStudent, serializeStudentS, owrite]

theorem serializeStudent_length (s : Student) :
    (serializeStudent [] s).length = 20 + s.name.length := by
  simp [serializeStudent_eq, toLE_length]
  omega

theorem isRead_ok (input : List Byte) (p w : Nat) (h : p + w ≤ input.length) :
    isRead ⟨input, p, false⟩ w = (⟨input, p + w, false⟩, (input.drop p).take w) := by
  have hk : min w (input.length - p) = w := by omega
  simp [isRead, hk]

theorem isRead_failed (st : IStream) (w : Nat) (h : st.fail = true) :
    isRead st w = (⟨st.data, st.pos, true⟩, []) := by
  simp [isRead, h]

theorem isRead_short (input : List Byte) (p w : Nat) (hp : p ≤ input.length)
    (h : input.length < p + w) :
    ((isRead ⟨input, p, false⟩ w).1).fail = true := by
  have hk : min w (input.length - p) = input.length - p := by omega
  simp [isRead, hk]
  omega

theorem readScalar_ok (input : List Byte) (p w old : Nat) (h : p + w ≤ input.length) :
    readScalar ⟨input, p, false⟩ w old =
      (⟨input, p + w, false⟩, fromLE ((input.drop p).take w)) := by
  have hlen : ((input.drop p).take w).length = w := by
    simp [List.length_take, List.length_drop]
    omega
  have hd : (toLE w old).drop w = [] :=
    List.drop_eq_nil_of_le (by simp [toLE_length])
  simp [readScalar, isRead_ok input p w h, hlen, hd]

theorem readScalar_failed (st : IStream) (w old : Nat) (h : st.fail = true) :
    readScalar st w old = (⟨st.data, st.pos, true⟩, fromLE (toLE w old)) := by
  simp [readScalar, isRead_failed st w h]

theorem readScalar_fail_mono (st : IStream) (w old : Nat) (h : st.fail = true) :
    ((readScalar st w old).1).fail = true := by
  simp [readScalar_failed st w old h]

/-- Characterization of deserializeStudent on a complete input: the four
fields are read strictly sequentially at offsets 0, 4, 12 and 20, the read
position ends at 20 + nameLength, the fail state stays clear, and the
resulting Student is exactly the byte slices of the input. -/
theorem deserialize_complete (input : List Byte) (dest : Student) (g : Nat)
    (h : 20 + lenField input ≤ input.length) :
    deserializeStudent ⟨input, 0, false⟩ dest g =
      (⟨input, 20 + lenField input, false⟩,
       ⟨fromLE (input.take 4),
        (input.drop 20).take (lenField input),
        fromLE ((input.drop 4).take 8)⟩) := by
  have h1 : (0 : Nat) + 4 ≤ input.length := by omega
  have h2 : 4 + 8 ≤ input.length := by omega
  have h3 : 12 + 8 ≤ input.length := by omega
  have hslice : ((input.drop 12).take 8).length = 8 := by
    simp [List.length_take, List.length_drop]
    omega
  have hg : (toLE 8 g).drop 8 = [] :=
    List.drop_eq_nil_of_le (by simp [toLE_length])
  have hname : 20 + lenField input ≤ input.length := h
  have hbs : ((input.drop 20).take (lenField input)).length = lenField input := by
    simp [List.length_take, List.length_drop]
    omega
  simp only [deserializeStudent,
    readScalar_ok input 0 4 dest.id h1,
    readScalar_ok input 4 8 dest.gpa h2]
  have hlenstep : readScalar ⟨input, 12, false⟩ 8 g =
      (⟨input, 20, false⟩, lenField input) := by
    have := readScalar_ok input 12 8 g h3
    simpa [lenField] using this
  simp only [hlenstep]
  have hread : isRead ⟨input, 20, false⟩ (lenField input) =
      (⟨input, 20 + lenField input, false⟩,
       (input.drop 20).take (lenField input)) :=
    isRead_ok input 20 (lenField input) (by omega)
  simp only [hread]
  have hres : (dest.name.take (lenField input) ++
      List.replicate (lenField input - dest.name.length) 0).drop
        (((input.drop 20).take (lenField input)).length) = [] := by
    apply List.drop_eq_nil_of_le
    simp [List.length_take, List.length_replicate, hbs]
    omega
  simp [hres, List.drop_zero]
  constructor <;> omega

theorem readScalar_fst (st : IStream) (w old : Nat) :
    (readScalar st w old).1 = (isRead st w).1 := rfl

theorem isRead_fst_fail_mono (st : IStream) (w : Nat) (h : st.fail = true) :
    ((isRead st w).1).fail = true := by
  simp [isRead_failed st w h]

/-- Byte slices of an encoded record (possibly followed by trailing
bytes): id bytes at offset 0, gpa bytes at offset 4, length bytes at
offset 12, name bytes from offset 20. -/
theorem encode_slices (s : Student) (rest : List Byte) :
    (serializeStudent [] s ++ rest).take 4 = toLE 4 s.id ∧
    ((serializeStudent [] s ++ rest).drop 4).take 8 = toLE 8 s.gpa ∧
    ((serializeStudent [] s ++ rest).drop 12).take 8 = toLE 8 s.name.length ∧
    (serializeStudent [] s ++ rest).drop 20 = s.name ++ rest := by
  rw [serializeStudent_eq]
  simp only [List.nil_append, List.append_assoc]
  refine ⟨List.take_left' (toLE_length 4 _), ?_, ?_, ?_⟩
  · rw [List.drop_left' (toLE_length 4 _)]
    exact List.take_left' (toLE_length 8 _)
  · rw [show toLE 4 s.id ++ (toLE 8 s.gpa ++ (toLE 8 s.name.length ++ (s.name ++ rest)))
        = (toLE 4 s.id ++ toLE 8 s.gpa) ++ (toLE 8 s.name.length ++ (s.name ++ rest))
      by simp [List.append_assoc]]
    rw [List.drop_left' (by simp [toLE_length])]
    exact List.take_left' (toLE_length 8 _)
  · rw [show toLE 4 s.id ++ (toLE 8 s.gpa ++ (toLE 8 s.name.length ++ (s.name ++ rest)))
        = (toLE 4 s.id ++ toLE 8 s.gpa ++ toLE 8 s.name.length) ++ (s.name ++ rest)
      by simp [List.append_assoc]]
    exact List.drop_left' (by simp [toLE_length])

/-- The length field decoded from an encoded record is the name length,
provided it fits in the 8-byte size_t. -/
theorem lenField_encode (s : Student) (rest : List Byte)
    (h : s.name.length < 256 ^ 8) :
    lenField (serializeStudent [] s ++ rest) = s.name.length := by
  unfold lenField
  rw [(encode_slices s rest).2.2.1]
  exact fromLE_toLE 8 _ h

/-- On an input truncated at any of the four layout positions (inside the
id, inside the gpa, inside the length field, or inside the name payload),
deserializeStudent ends with the stream in the failed state. -/
theorem deserialize_truncated (input : List Byte) (dest : Student) (g : Nat)
    (h : input.length < 20 + lenField input) :
    ((deserializeStudent ⟨input, 0, false⟩ dest g).1).fail = true := by
  by_cases h4 : input.length < 4
  · have h1 : ((readScalar ⟨input, 0, false⟩ 4 dest.id).1).fail = true := by
      rw [readScalar_fst]
      exact isRead_short input 0 4 (by omega) (by omega)
    have h2 := readScalar_fail_mono _ 8 dest.gpa h1
    have h3 := readScalar_fail_mono _ 8 g h2
    exact isRead_fst_fail_mono _ _ h3
  · by_cases h12 : input.length < 12
    · have h2 : ((readScalar ⟨input, 4, false⟩ 8 dest.gpa).1).fail = true := by
        rw [readScalar_fst]
        exact isRead_short input 4 8 (by omega) (by omega)
      have h3 := readScalar_fail_mono _ 8 g h2
      simp only [deserializeStudent, readScalar_ok input 0 4 dest.id (by omega)]
      exact isRead_fst_fail_mono _ _ h3
    · by_cases h20 : input.length < 20
      · have h3 : ((readScalar ⟨input, 12, false⟩ 8 g).1).fail = true := by
          rw [readScalar_fst]
          exact isRead_short input 12 8 (by omega) (by omega)
        simp only [deserializeStudent, readScalar_ok input 0 4 dest.id (by omega),
          readScalar_ok input 4 8 dest.gpa (by omega)]
        exact isRead_fst_fail_mono _ _ h3
      · have hlenstep : readScalar ⟨input, 12, false⟩ 8 g =
            (⟨input, 20, false⟩, lenField input) := by
          have := readScalar_ok input 12 8 g (by omega)
          simpa [lenField] using this
        simp only [deserializeStudent, readScalar_ok input 0 4 dest.id (by omega),
          readScalar_ok input 4 8 dest.gpa (by omega), hlenstep]
        exact isRead_short input 20 (lenField input) (by omega) (by omega)

/-- Fail propagation: deserializeStudent on a stream that is already in
the failed state leaves it failed. -/
theorem deserialize_fail_mono (st : IStream) (dest : Student) (g : Nat)
    (h : st.fail = true) :
    ((deserializeStudent st dest g).1).fail = true := by
  simp only [deserializeStudent]
  have h1 := readScalar_fail_mono st 4 dest.id h
  have h2 := readScalar_fail_mono (readScalar st 4 dest.id).1 8 dest.gpa h1
  have h3 := readScalar_fail_mono
    (readScalar (readScalar st 4 dest.id).1 8 dest.gpa).1 8 g h2
  simp [isRead_failed _ _ h3]

/-- C1: round-trip fidelity. For every Record whose id fits in the 4-byte
int bit-pattern range, whose gpa bit pattern fits in 8 bytes, and whose
name length fits in the 8-byte size_t (any score bit pattern including
0.0, negative and fractional values; names of any such length including
embedded null bytes and multi-byte character bytes), deserializing the
serialized bytes yields the Record back field-for-field, regardless of
the destination Record and of the garbage in the uninitialized local;
consequently serializing the decoded Record reproduces the original byte
sequence bitwise. -/
theorem roundtrip_fidelity (s dest : Student) (g : Nat)
    (hid : s.id < 256 ^ 4) (hgpa : s.gpa < 256 ^ 8)
    (hname : s.name.length < 256 ^ 8) :
    (deserializeStudent ⟨serializeStudent [] s, 0, false⟩ dest g).2 = s ∧
    serializeStudent []
        ((deserializeStudent ⟨serializeStudent [] s, 0, false⟩ dest g).2) =
      serializeStudent [] s := by
  have hs := encode_slices s []
  simp only [List.append_nil] at hs
  have hlf : lenField (serializeStudent [] s) = s.name.length := by
    have := lenField_encode s [] hname
    rwa [List.append_nil] at this
  have hc : 20 + lenField (serializeStudent [] s)
      ≤ (serializeStudent [] s).length := by
    rw [hlf, serializeStudent_length]
  have hmain :
      (deserializeStudent ⟨serializeStudent [] s, 0, false⟩ dest g).2 = s := by
    rw [deserialize_complete _ dest g hc]
    show (⟨_, _, _⟩ : Student) = s
    rw [hs.1, hs.2.1, hs.2.2.2, hlf, fromLE_toLE 4 s.id hid,
      fromLE_toLE 8 s.gpa hgpa, List.take_length]
  exact ⟨hmain, by rw [hmain]⟩

/-- C1 witness: a concrete Record with an embedded null byte and the
UTF-8 bytes of a multi-byte character in its name round-trips exactly. -/
theorem roundtrip_fidelity_witness :
    ((101 : Nat) < 256 ^ 4 ∧ (0x400ECCCCCCCCCCCD : Nat) < 256 ^ 8 ∧
      ([0, 195, 169] : List Byte).length < 256 ^ 8) ∧
    ((deserializeStudent
        ⟨serializeStudent [] ⟨101, [0, 195, 169], 0x400ECCCCCCCCCCCD⟩, 0, false⟩
        ⟨7, [1, 2, 3], 9⟩ 12345).2 = ⟨101, [0, 195, 169], 0x400ECCCCCCCCCCCD⟩ ∧
     serializeStudent []
        ((deserializeStudent
          ⟨serializeStudent [] ⟨101, [0, 195, 169], 0x400ECCCCCCCCCCCD⟩, 0, false⟩
          ⟨7, [1, 2, 3], 9⟩ 12345).2) =
       serializeStudent [] ⟨101, [0, 195, 169], 0x400ECCCCCCCCCCCD⟩) :=
  ⟨⟨by decide, by decide, by decide⟩,
   roundtrip_fidelity ⟨101, [0, 195, 169], 0x400ECCCCCCCCCCCD⟩ ⟨7, [1, 2, 3], 9⟩
     12345 (by decide) (by decide) (by decide)⟩

/-- C2 counterexample: on the 2-byte input [1, 0] (cut inside the id
field), deserializeStudent raises nothing and returns a partially
populated Record: the id holds the two truncated bytes completed by the
destination's old id bytes, and the gpa is the destination's prior gpa
bit pattern (5 in the first run, 7 in the second), so the result leaks
the destination's prior state instead of failing with a
TruncatedInputError. -/
theorem truncation_counterexample :
    ((deserializeStudent ⟨[1, 0], 0, false⟩ ⟨0, [], 5⟩ 0).2 =
        (⟨1, [], 5⟩ : Student) ∧
      ((deserializeStudent ⟨[1, 0], 0, false⟩ ⟨0, [], 5⟩ 0).1).fail = true) ∧
    (deserializeStudent ⟨[1, 0], 0, false⟩ ⟨0, [], 7⟩ 0).2 =
      (⟨1, [], 7⟩ : Student) := by
  decide

/-- C2 amended: on every input truncated at any of the four layout
positions (inside the id, inside the gpa, inside the length field, or
inside the name payload), deserializeStudent sets the stream's fail
state and returns normally; no TruncatedInputError exists in the code,
and the returned Record can be partially populated from the
destination's prior contents. -/
theorem truncation_failbit (input : List Byte) (dest : Student) (g : Nat)
    (h : input.length < 20 + lenField input) :
    ((deserializeStudent ⟨input, 0, false⟩ dest g).1).fail = true :=
  deserialize_truncated input dest g h

/-- C2 witness: the truncated input [1, 0] leaves the stream failed. -/
theorem truncation_failbit_witness :
    ([1, 0] : List Byte).length < 20 + lenField [1, 0] ∧
    ((deserializeStudent ⟨[1, 0], 0, false⟩ ⟨0, [], 5⟩ 0).1).fail = true :=
  ⟨by decide, truncation_failbit [1, 0] ⟨0, [], 5⟩ 0 (by decide)⟩

/-- C3: length-field fidelity. Whenever the input holds at least the 20
header bytes plus as many payload bytes as the length field announces,
the decoded name is exactly the announced number of raw payload bytes —
embedded zero bytes included, with no early stop. -/
theorem length_field_fidelity (input : List Byte) (dest : Student) (g : Nat)
    (h : 20 + lenField input ≤ input.length) :
    ((deserializeStudent ⟨input, 0, false⟩ dest g).2).name =
        (input.drop 20).take (lenField input) ∧
    ((deserializeStudent ⟨input, 0, false⟩ dest g).2).name.length =
      lenField input := by
  rw [deserialize_complete input dest g h]
  refine ⟨rfl, ?_⟩
  simp [List.length_take, List.length_drop]
  omega

/-- C3 witness: an input whose 3-byte payload contains embedded zero
bytes decodes to a name of exactly 3 bytes. -/
theorem length_field_fidelity_witness :
    20 + lenField [1, 2, 3, 4, 0, 0, 0, 0, 0, 0, 0, 0, 3, 0, 0, 0, 0, 0, 0, 0,
        0, 65, 0] ≤
      ([1, 2, 3, 4, 0, 0, 0, 0, 0, 0, 0, 0, 3, 0, 0, 0, 0, 0, 0, 0,
        0, 65, 0] : List Byte).length ∧
    ((deserializeStudent
        ⟨[1, 2, 3, 4, 0, 0, 0, 0, 0, 0, 0, 0, 3, 0, 0, 0, 0, 0, 0, 0,
          0, 65, 0], 0, false⟩ ⟨9, [8], 7⟩ 6).2).name =
        ([1, 2, 3, 4, 0, 0, 0, 0, 0, 0, 0, 0, 3, 0, 0, 0, 0, 0, 0, 0,
          0, 65, 0].drop 20).take
          (lenField [1, 2, 3, 4, 0, 0, 0, 0, 0, 0, 0, 0, 3, 0, 0, 0, 0, 0, 0, 0,
            0, 65, 0]) ∧
    ((deserializeStudent
        ⟨[1, 2, 3, 4, 0, 0, 0, 0, 0, 0, 0, 0, 3, 0, 0, 0, 0, 0, 0, 0,
          0, 65, 0], 0, false⟩ ⟨9, [8], 7⟩ 6).2).name.length =
      lenField [1, 2, 3, 4, 0, 0, 0, 0, 0, 0, 0, 0, 3, 0, 0, 0, 0, 0, 0, 0,
        0, 65, 0] := by
  refine ⟨by decide, ?_, ?_⟩
  · exact (length_field_fidelity _ ⟨9, [8], 7⟩ 6 (by decide)).1
  · exact (length_field_fidelity _ ⟨9, [8], 7⟩ 6 (by decide)).2

/-- C4: layout and decode order. The encoded byte sequence is the 4-byte
id image, then the 8-byte gpa image, then the 8-byte unsigned length
field, then exactly the raw name bytes with no terminator appended (total
20 + name length bytes); and on any sufficiently long input, decode reads
the four fields in exactly that order in one sequential pass: the fields
come from the byte slices at offsets 0, 4, 12 and 20 and the read
position ends at exactly 20 + name length, with no backtracking. -/
theorem layout_and_decode_order (s : Student) (input : List Byte)
    (dest : Student) (g : Nat) (h : 20 + lenField input ≤ input.length) :
    serializeStudent [] s =
        toLE 4 s.id ++ toLE 8 s.gpa ++ toLE 8 s.name.length ++ s.name ∧
    (toLE 4 s.id).length = 4 ∧ (toLE 8 s.gpa).length = 8 ∧
    (toLE 8 s.name.length).length = 8 ∧
    (serializeStudent [] s).length = 20 + s.name.length ∧
    deserializeStudent ⟨input, 0, false⟩ dest g =
      (⟨input, 20 + lenField input, false⟩,
       ⟨fromLE (input.take 4), (input.drop 20).take (lenField input),
        fromLE ((input.drop 4).take 8)⟩) :=
  ⟨by simpa using serializeStudent_eq [] s, toLE_length 4 s.id,
   toLE_length 8 s.gpa, toLE_length 8 s.name.length,
   serializeStudent_length s, deserialize_complete input dest g h⟩

/-- C4 witness: the layout and decode-order characterization at a
concrete Record and a concrete 23-byte input. -/
theorem layout_and_decode_order_witness :
    20 + lenField [1, 2, 3, 4, 0, 0, 0, 0, 0, 0, 0, 0, 2, 0, 0, 0, 0, 0, 0, 0,
        65, 66, 99] ≤
      ([1, 2, 3, 4, 0, 0, 0, 0, 0, 0, 0, 0, 2, 0, 0, 0, 0, 0, 0, 0,
        65, 66, 99] : List Byte).length ∧
    (serializeStudent [] ⟨3, [10, 20], 4⟩ =
        toLE 4 (3 : Nat) ++ toLE 8 (4 : Nat) ++ toLE 8 ([10, 20] : List Byte).length
          ++ [10, 20] ∧
      (toLE 4 (3 : Nat)).length = 4 ∧ (toLE 8 (4 : Nat)).length = 8 ∧
      (toLE 8 ([10, 20] : List Byte).length).length = 8 ∧
      (serializeStudent [] ⟨3, [10, 20], 4⟩).length = 20 + ([10, 20] : List Byte).length ∧
      deserializeStudent
          ⟨[1, 2, 3, 4, 0, 0, 0, 0, 0, 0, 0, 0, 2, 0, 0, 0, 0, 0, 0, 0,
            65, 66, 99], 0, false⟩ ⟨9, [8], 7⟩ 6 =
        (⟨[1, 2, 3, 4, 0, 0, 0, 0, 0, 0, 0, 0, 2, 0, 0, 0, 0, 0, 0, 0,
            65, 66, 99],
          20 + lenField [1, 2, 3, 4, 0, 0, 0, 0, 0, 0, 0, 0, 2, 0, 0, 0, 0, 0, 0, 0,
            65, 66, 99], false⟩,
         ⟨fromLE ([1, 2, 3, 4, 0, 0, 0, 0, 0, 0, 0, 0, 2, 0, 0, 0, 0, 0, 0, 0,
            65, 66, 99].take 4),
          ([1, 2, 3, 4, 0, 0, 0, 0, 0, 0, 0, 0, 2, 0, 0, 0, 0, 0, 0, 0,
            65, 66, 99].drop 20).take
            (lenField [1, 2, 3, 4, 0, 0, 0, 0, 0, 0, 0, 0, 2, 0, 0, 0, 0, 0, 0, 0,
              65, 66, 99]),
          fromLE (([1, 2, 3, 4, 0, 0, 0, 0, 0, 0, 0, 0, 2, 0, 0, 0, 0, 0, 0, 0,
            65, 66, 99].drop 4).take 8)⟩)) :=
  ⟨by decide,
   layout_and_decode_order ⟨3, [10, 20], 4⟩
     [1, 2, 3, 4, 0, 0, 0, 0, 0, 0, 0, 0, 2, 0, 0, 0, 0, 0, 0, 0, 65, 66, 99]
     ⟨9, [8], 7⟩ 6 (by decide)⟩

/-- C5: empty-name boundary. A Record with an empty name serializes to
exactly 4 + 8 + 8 = 20 bytes (no name payload bytes), and deserializing
those bytes succeeds (fail state clear) with an empty decoded name. -/
theorem empty_name_boundary (s dest : Student) (g : Nat) (h : s.name = []) :
    (serializeStudent [] s).length = 20 ∧
    ((deserializeStudent ⟨serializeStudent [] s, 0, false⟩ dest g).2).name
        = [] ∧
    ((deserializeStudent ⟨serializeStudent [] s, 0, false⟩ dest g).1).fail
      = false := by
  have hlf : lenField (serializeStudent [] s) = 0 := by
    have := lenField_encode s [] (by rw [h]; simp)
    rw [List.append_nil] at this
    rw [this, h]
    rfl
  have hl : (serializeStudent [] s).length = 20 := by
    rw [serializeStudent_length, h]
    rfl
  have hc : 20 + lenField (serializeStudent [] s)
      ≤ (serializeStudent [] s).length := by
    rw [hlf, hl]
  rw [deserialize_complete _ dest g hc]
  exact ⟨hl, by simp [hlf], rfl⟩

/-- C5 witness: the Record with id 5, empty name and gpa bit pattern 17
encodes to 20 bytes and decodes back to an empty name with no failure. -/
theorem empty_name_boundary_witness :
    (⟨5, [], 17⟩ : Student).name = [] ∧
    ((serializeStudent [] ⟨5, [], 17⟩).length = 20 ∧
      ((deserializeStudent ⟨serializeStudent [] ⟨5, [], 17⟩, 0, false⟩
          ⟨1, [9], 2⟩ 3).2).name = [] ∧
      ((deserializeStudent ⟨serializeStudent [] ⟨5, [], 17⟩, 0, false⟩
          ⟨1, [9], 2⟩ 3).1).fail = false) :=
  ⟨rfl, empty_name_boundary ⟨5, [], 17⟩ ⟨1, [9], 2⟩ 3 rfl⟩

/-- C6: exact consumption. Deserializing a well-formed encoded record
followed by arbitrary trailing bytes advances the read position by
exactly 4 + 8 + 8 + name-length bytes, leaves the underlying data (and
hence the trailing bytes) untouched, and produces the same Record as
deserializing the encoded record alone — nothing beyond the record's
bytes is read. -/
theorem exact_consumption (s : Student) (rest : List Byte) (dest : Student)
    (g : Nat) (h : s.name.length < 256 ^ 8) :
    (deserializeStudent ⟨serializeStudent [] s ++ rest, 0, false⟩ dest g).1 =
      ⟨serializeStudent [] s ++ rest, 20 + s.name.length, false⟩ ∧
    (deserializeStudent ⟨serializeStudent [] s ++ rest, 0, false⟩ dest g).2 =
      (deserializeStudent ⟨serializeStudent [] s, 0, false⟩ dest g).2 := by
  have hlfr := lenField_encode s rest h
  have hlf : lenField (serializeStudent [] s) = s.name.length := by
    have := lenField_encode s [] h
    rwa [List.append_nil] at this
  have hcr : 20 + lenField (serializeStudent [] s ++ rest)
      ≤ (serializeStudent [] s ++ rest).length := by
    rw [hlfr, List.length_append, serializeStudent_length]
    omega
  have hc : 20 + lenField (serializeStudent [] s)
      ≤ (serializeStudent [] s).length := by
    rw [hlf, serializeStudent_length]
  have hsr := encode_slices s rest
  have hs := encode_slices s []
  simp only [List.append_nil] at hs
  constructor
  · rw [deserialize_complete _ dest g hcr, hlfr]
  · rw [deserialize_complete _ dest g hcr, deserialize_complete _ dest g hc]
    show (⟨_, _, _⟩ : Student) = ⟨_, _, _⟩
    rw [hsr.1, hs.1, hsr.2.1, hs.2.1, hsr.2.2.2, hs.2.2.2, hlfr, hlf,
      List.take_length, List.take_left' rfl]

/-- C6 witness: a concrete encoded record followed by three trailing
bytes is consumed exactly and decodes as if the trailing bytes were
absent. -/
theorem exact_consumption_witness :
    (⟨3, [10, 20], 4⟩ : Student).name.length < 256 ^ 8 ∧
    ((deserializeStudent
        ⟨serializeStudent [] ⟨3, [10, 20], 4⟩ ++ [7, 7, 7], 0, false⟩
        ⟨9, [8], 7⟩ 6).1 =
      ⟨serializeStudent [] ⟨3, [10, 20], 4⟩ ++ [7, 7, 7],
        20 + (⟨3, [10, 20], 4⟩ : Student).name.length, false⟩ ∧
     (deserializeStudent
        ⟨serializeStudent [] ⟨3, [10, 20], 4⟩ ++ [7, 7, 7], 0, false⟩
        ⟨9, [8], 7⟩ 6).2 =
      (deserializeStudent ⟨serializeStudent [] ⟨3, [10, 20], 4⟩, 0, false⟩
        ⟨9, [8], 7⟩ 6).2) :=
  ⟨by decide, exact_consumption ⟨3, [10, 20], 4⟩ [7, 7, 7] ⟨9, [8], 7⟩ 6
    (by decide)⟩

/-- C7: encode determinism. The bytes that serializeStudent appends to
the sink depend only on the Record, not on the sink's prior contents and
not on the invocation: any two invocations on the same Record append the
same byte sequence (no timestamps, no random padding). -/
theorem encode_deterministic (s : Student) (os1 os2 : List Byte) :
    (serializeStudent os1 s).drop os1.length =
      (serializeStudent os2 s).drop os2.length := by
  rw [serializeStudent_eq, serializeStudent_eq,
    List.drop_left' rfl, List.drop_left' rfl]

/-- C8: encode is effect-free on its input. Running serializeStudent as
a state transformer on (sink, student) leaves the Student component
exactly as it was, and its only effect is appending the encoding to the
sink. -/
theorem encode_pure (os : List Byte) (s : Student) :
    (serializeStudentS os s).2 = s ∧
    (serializeStudentS os s).1 = os ++ serializeStudent [] s := by
  refine ⟨rfl, ?_⟩
  rw [serializeStudent_eq]
  simp [serializeStudentS, owrite]

/-- Name bytes of the string "Alice Smith" (11 ASCII bytes). -/
def aliceName : List Byte := [65, 108, 105, 99, 101, 32, 83, 109, 105, 116, 104]

/-- Bit pattern of the IEEE-754 binary64 value 3.85. -/
def gpa385 : Nat := 0x400ECCCCCCCCCCCD

/-- The Record of the demonstration driver: id 101, name "Alice Smith",
gpa 3.85. -/
def aliceStudent : Student := ⟨101, aliceName, gpa385⟩

/-- C9: concrete scenario. Encoding the Record with id 101, name
"Alice Smith" and gpa 3.85 produces exactly 4 + 8 + 8 + 11 = 31 bytes,
and decoding that byte sequence returns the identical Record with the
stream still in the good state. -/
theorem concrete_scenario :
    (serializeStudent [] aliceStudent).length = 31 ∧
    (deserializeStudent ⟨serializeStudent [] aliceStudent, 0, false⟩
        ⟨0, [], 0⟩ 0).2 = aliceStudent ∧
    ((deserializeStudent ⟨serializeStudent [] aliceStudent, 0, false⟩
        ⟨0, [], 0⟩ 0).1).fail = false := by
  decide

/-- C10: decode result is independent of the destination Record's prior
contents. On any well-formed input, deserializing into two destinations
with arbitrary prior id, name and gpa (and arbitrary garbage in the
uninitialized length local) produces identical Records: every field is
unconditionally overwritten. -/
theorem decode_independent_of_dest (input : List Byte) (d1 d2 : Student)
    (g1 g2 : Nat) (h : 20 + lenField input ≤ input.length) :
    (deserializeStudent ⟨input, 0, false⟩ d1 g1).2 =
      (deserializeStudent ⟨input, 0, false⟩ d2 g2).2 := by
  rw [deserialize_complete input d1 g1 h, deserialize_complete input d2 g2 h]

/-- C10 witness: two very different destination Records decode the same
concrete well-formed input to the same Record. -/
theorem decode_independent_of_dest_witness :
    20 + lenField [1, 2, 3, 4, 0, 0, 0, 0, 0, 0, 0, 0, 2, 0, 0, 0, 0, 0, 0, 0,
        65, 66] ≤
      ([1, 2, 3, 4, 0, 0, 0, 0, 0, 0, 0, 0, 2, 0, 0, 0, 0, 0, 0, 0,
        65, 66] : List Byte).length ∧
    (deserializeStudent
        ⟨[1, 2, 3, 4, 0, 0, 0, 0, 0, 0, 0, 0, 2, 0, 0, 0, 0, 0, 0, 0,
          65, 66], 0, false⟩ ⟨1, [2], 3⟩ 0).2 =
      (deserializeStudent
        ⟨[1, 2, 3, 4, 0, 0, 0, 0, 0, 0, 0, 0, 2, 0, 0, 0, 0, 0, 0, 0,
          65, 66], 0, false⟩ ⟨4, [5, 6], 7⟩ 999).2 :=
  ⟨by decide,
   decode_independent_of_dest
     [1, 2, 3, 4, 0, 0, 0, 0, 0, 0, 0, 0, 2, 0, 0, 0, 0, 0, 0, 0, 65, 66]
     ⟨1, [2], 3⟩ ⟨4, [5, 6], 7⟩ 0 999 (by decide)⟩

end RecordCodec
